import Mathlib

/-!
Shallow embedding of the procedural double-helix geometry generator and the
rotation driver of `src/src/App.jsx` (components `DNAHelix`, lines 75-152,
and `Rotator`, lines 160-179), together with proofs of the testable
properties stated for them.

JavaScript numbers are modelled as real numbers.  Where the source can
divide by zero (`heightStep` when `turns = 0`, giving `Infinity`/`NaN` in
JavaScript; `normalize` of a zero vector, which THREE.js guards with
`length() || 1`), the model notes the divergence at the definition; no
settled statement depends on the real value produced by a division by zero.
-/

open Real

/-- Sampling density: `const pointsPerTurn = 40` (App.jsx line 76). -/
def pointsPerTurn : ℕ := 40

/-- The props of the `DNAHelix` component: `{ turns, radius, height }`
(line 75; defaults `turns = 3`, `radius = 2`, `height = 15`). -/
structure HelixConfig where
  turns : ℝ
  radius : ℝ
  height : ℝ

/-- A `THREE.Vector3`: an immutable triple of reals. -/
@[ext]
structure Point3 where
  x : ℝ
  y : ℝ
  z : ℝ

/-- One rung `{ start, end }` pushed at line 107.  The source field name
`end` is a reserved word in Lean and is rendered `endPoint`. -/
structure Rung where
  start : Point3
  endPoint : Point3

/-- The value memoised at lines 79-116: the two backbone point sequences
(the fitted Catmull-Rom curves interpolate these points) and the rung list. -/
structure HelixGeometry where
  strand1 : List Point3
  strand2 : List Point3
  rungs : List Rung

/-- `const angleStep = (Math.PI * 2) / pointsPerTurn` (line 86). -/
noncomputable def angleStep : ℝ := Real.pi * 2 / (pointsPerTurn : ℝ)

/-- `const totalPoints = turns * pointsPerTurn` (line 84). -/
noncomputable def totalPoints (c : HelixConfig) : ℝ := c.turns * (pointsPerTurn : ℝ)

/-- `const heightStep = height / totalPoints` (line 85).  For `turns = 0`
the source divides by zero (yielding `Infinity` in JavaScript, hence `NaN`
sample heights); in this model a division by zero yields `0`. -/
noncomputable def heightStep (c : HelixConfig) : ℝ := c.height / totalPoints c

/-- The number of iterations of the sampling loop
`for (let i = 0; i <= totalPoints; i++)` (line 88): the count of integers
`i ≥ 0` with `i ≤ totalPoints`, i.e. `⌊totalPoints⌋ + 1` when
`totalPoints ≥ 0` and `0` when `totalPoints < 0`. -/
noncomputable def numSamples (c : HelixConfig) : ℕ := (⌊totalPoints c⌋ + 1).toNat

/-- The strand-1 sample pushed at index `i` (lines 89-102):
`(cos(angle) * radius, i * heightStep - height / 2, sin(angle) * radius)`
with `angle = i * angleStep`. -/
noncomputable def samplePoint1 (c : HelixConfig) (i : ℕ) : Point3 :=
  { x := Real.cos ((i : ℝ) * angleStep) * c.radius
    y := (i : ℝ) * heightStep c - c.height / 2
    z := Real.sin ((i : ℝ) * angleStep) * c.radius }

/-- The strand-2 sample pushed at index `i` (lines 96-103), 180 degrees
apart from strand 1:
`(cos(angle + π) * radius, i * heightStep - height / 2, sin(angle + π) * radius)`. -/
noncomputable def samplePoint2 (c : HelixConfig) (i : ℕ) : Point3 :=
  { x := Real.cos ((i : ℝ) * angleStep + Real.pi) * c.radius
    y := (i : ℝ) * heightStep c - c.height / 2
    z := Real.sin ((i : ℝ) * angleStep + Real.pi) * c.radius }

/-- The geometry computation inside `DNAHelix`'s `useMemo` (lines 79-116):
one pass of the loop pushes `samplePoint1` onto `b1Points`, `samplePoint2`
onto `b2Points`, and, when `i % 4 === 0`, the pair onto `rungData`.
There is no validation of `turns`, `radius` or `height` anywhere in the
component: the function is total. -/
noncomputable def build (c : HelixConfig) : HelixGeometry :=
  { strand1 := (List.range (numSamples c)).map (samplePoint1 c)
    strand2 := (List.range (numSamples c)).map (samplePoint2 c)
    rungs := ((List.range (numSamples c)).filter (fun i => i % 4 == 0)).map
      (fun i => { start := samplePoint1 c i, endPoint := samplePoint2 c i }) }

/-- Distance of a point from the central (y) axis. -/
noncomputable def axisDist (p : Point3) : ℝ := Real.sqrt (p.x ^ 2 + p.z ^ 2)

/-- `new THREE.Vector3().subVectors(a, b)`: componentwise `a - b`. -/
noncomputable def sub3 (a b : Point3) : Point3 :=
  { x := a.x - b.x, y := a.y - b.y, z := a.z - b.z }

/-- `new THREE.Vector3().addVectors(a, b).multiplyScalar(0.5)` (line 135). -/
noncomputable def midpoint3 (a b : Point3) : Point3 :=
  { x := (a.x + b.x) / 2, y := (a.y + b.y) / 2, z := (a.z + b.z) / 2 }

/-- `Vector3.length()`: the Euclidean norm. -/
noncomputable def len3 (p : Point3) : ℝ := Real.sqrt (p.x ^ 2 + p.y ^ 2 + p.z ^ 2)

/-- `Vector3.normalize()`, which THREE.js implements as
`divideScalar(this.length() || 1)`: a zero vector is divided by `1` and so
stays the zero vector instead of producing `NaN`. -/
noncomputable def normalize3 (p : Point3) : Point3 :=
  if len3 p = 0 then p
  else { x := p.x / len3 p, y := p.y / len3 p, z := p.z / len3 p }

/-- The renderable cylinder node produced for one rung (lines 143-148):
`position` is the midpoint, `axisDir` is the (normalized) direction vector
handed to `Quaternion.setFromUnitVectors((0,1,0), ·)` — the quaternion is a
function of this vector, so the node records the vector itself — and
`cylinderGeometry args={[0.08, 0.08, length, 8]}`. -/
structure RungNode where
  position : Point3
  axisDir : Point3
  radiusTop : ℝ
  radiusBottom : ℝ
  cylHeight : ℝ
  radialSegments : ℕ

/-- The per-rung body of `rungs.map` (lines 133-148): midpoint, direction,
length, orientation from the normalized direction, cylinder primitive.
There is no special case for a degenerate (zero-length) rung: the
normalize-and-orient step runs unconditionally. -/
noncomputable def assembleRung (rg : Rung) : RungNode :=
  { position := midpoint3 rg.start rg.endPoint
    axisDir := normalize3 (sub3 rg.endPoint rg.start)
    radiusTop := 0.08
    radiusBottom := 0.08
    cylHeight := len3 (sub3 rg.endPoint rg.start)
    radialSegments := 8 }

/-- The reference angular velocity `0.5` of the spin
(`delta * 0.5` at line 166). -/
noncomputable def angularVelocity : ℝ := 0.5

/-- One tick of the `useFrame` callback (lines 163-168):
`rotation.y -= delta * 0.5`. -/
noncomputable def rotatorStep (angle delta : ℝ) : ℝ :=
  angle - delta * angularVelocity

/-- Running the rotation driver from its initial angle `0` over a finite
sequence of frame deltas, one `rotatorStep` per delta. -/
noncomputable def rotatorRun (deltas : List ℝ) : ℝ :=
  deltas.foldl rotatorStep 0

/-- The transform state of the `Rotator` component (lines 170-178): the
outer `<group rotation={[0, 0, Math.PI / 6]}>` contributes a rotation about
the z (viewing) axis, the inner `<group ref={groupRef}>` a rotation about
the y axis. -/
structure RotatorFrame where
  tiltZ : ℝ
  spinY : ℝ

/-- The state at mount: the outer tilt is `π / 6`, the inner group has no
`rotation` prop, so its spin starts at `0`. -/
noncomputable def rotatorMount : RotatorFrame := { tiltZ := Real.pi / 6, spinY := 0 }

/-- One `useFrame` tick applied to the transform state: only
`groupRef.current.rotation.y` is written (line 166); the outer group is
never touched. -/
noncomputable def rotatorFrameTick (s : RotatorFrame) (delta : ℝ) : RotatorFrame :=
  { s with spinY := rotatorStep s.spinY delta }

/-- Rotation of a point about the y axis by `θ`
(`THREE.Matrix4.makeRotationY`). -/
noncomputable def rotY (θ : ℝ) (p : Point3) : Point3 :=
  { x := Real.cos θ * p.x + Real.sin θ * p.z
    y := p.y
    z := -Real.sin θ * p.x + Real.cos θ * p.z }

/-- Rotation of a point about the z axis by `θ`
(`THREE.Matrix4.makeRotationZ`). -/
noncomputable def rotZ (θ : ℝ) (p : Point3) : Point3 :=
  { x := Real.cos θ * p.x - Real.sin θ * p.y
    y := Real.sin θ * p.x + Real.cos θ * p.y
    z := p.z }

/-- The world transform the nested groups apply to a point of the helix:
the parent (tilt) transform applied to the child (spin) transform's output. -/
noncomputable def rotatorWorld (s : RotatorFrame) (p : Point3) : Point3 :=
  rotZ s.tiltZ (rotY s.spinY p)

/- ### Helper lemmas -/

theorem totalPoints_cfg (t r h : ℝ) : totalPoints ⟨t, r, h⟩ = t * 40 := by
  simp [totalPoints, pointsPerTurn]

theorem numSamples_eq_floor (c : HelixConfig) (h : 0 ≤ c.turns) :
    numSamples c = ⌊totalPoints c⌋₊ + 1 := by
  have h0 : (0 : ℝ) ≤ totalPoints c := by
    have : (0 : ℝ) ≤ (pointsPerTurn : ℝ) := by positivity
    exact mul_nonneg h this
  have h1 : 0 ≤ ⌊totalPoints c⌋ := Int.floor_nonneg.mpr h0
  rw [numSamples, ← Int.floor_toNat]
  omega

theorem build_strand1_length (c : HelixConfig) :
    (build c).strand1.length = numSamples c := by
  simp [build]

theorem build_strand2_length (c : HelixConfig) :
    (build c).strand2.length = numSamples c := by
  simp [build]

theorem numSamples_default : numSamples ⟨3, 2, 15⟩ = 121 := by
  have h : totalPoints ⟨3, 2, 15⟩ = ((120 : ℤ) : ℝ) := by
    rw [totalPoints_cfg]; norm_num
  rw [numSamples, h, Int.floor_intCast]
  rfl

theorem build_strand1_getElem (c : HelixConfig) (i : ℕ)
    (hi : i < (build c).strand1.length) :
    (build c).strand1[i] = samplePoint1 c i := by
  simp [build]

theorem build_strand2_getElem (c : HelixConfig) (i : ℕ)
    (hi : i < (build c).strand2.length) :
    (build c).strand2[i] = samplePoint2 c i := by
  simp [build]

theorem filter_mod4_range (n : ℕ) :
    (List.range n).filter (fun i => i % 4 == 0) =
      (List.range ((n + 3) / 4)).map (fun k => 4 * k) := by
  induction n with
  | zero => rfl
  | succ n ih =>
    rw [List.range_succ, List.filter_append, ih]
    by_cases h : n % 4 = 0
    · have h4 : (n + 1 + 3) / 4 = (n + 3) / 4 + 1 := by omega
      have h5 : 4 * ((n + 3) / 4) = n := by omega
      rw [h4, List.range_succ, List.map_append]
      simp [h, h5]
    · have h4 : (n + 1 + 3) / 4 = (n + 3) / 4 := by omega
      rw [h4]
      simp [h]

theorem build_rungs_eq (c : HelixConfig) :
    (build c).rungs = (List.range ((numSamples c + 3) / 4)).map
      (fun k => { start := samplePoint1 c (4 * k)
                  endPoint := samplePoint2 c (4 * k) }) := by
  rw [build]
  simp only [filter_mod4_range, List.map_map]
  rfl

theorem build_rungs_length (c : HelixConfig) :
    (build c).rungs.length = (numSamples c + 3) / 4 := by
  rw [build_rungs_eq]
  simp

theorem numSamples_turns_zero (r h : ℝ) : numSamples ⟨0, r, h⟩ = 1 := by
  rw [numSamples, totalPoints_cfg]
  norm_num

theorem heightStep_pos (c : HelixConfig) (ht : 0 < c.turns) (hh : 0 < c.height) :
    0 < heightStep c := by
  have h40 : (0 : ℝ) < (pointsPerTurn : ℝ) := by norm_num [pointsPerTurn]
  exact div_pos hh (mul_pos ht h40)

theorem build_strand1_getElem? (c : HelixConfig) (i : ℕ) (hi : i < numSamples c) :
    (build c).strand1[i]? = some (samplePoint1 c i) := by
  simp [build, hi]

theorem build_strand2_getElem? (c : HelixConfig) (i : ℕ) (hi : i < numSamples c) :
    (build c).strand2[i]? = some (samplePoint2 c i) := by
  simp [build, hi]

theorem axisDist_samplePoint1 (c : HelixConfig) (i : ℕ) (hr : 0 ≤ c.radius) :
    axisDist (samplePoint1 c i) = c.radius := by
  have key : (Real.cos ((i : ℝ) * angleStep) * c.radius) ^ 2 +
      (Real.sin ((i : ℝ) * angleStep) * c.radius) ^ 2 = c.radius ^ 2 := by
    linear_combination c.radius ^ 2 * Real.sin_sq_add_cos_sq ((i : ℝ) * angleStep)
  rw [axisDist, samplePoint1, key]
  exact Real.sqrt_sq hr

theorem samplePoint2_x (c : HelixConfig) (i : ℕ) :
    (samplePoint2 c i).x = -(samplePoint1 c i).x := by
  simp [samplePoint1, samplePoint2, Real.cos_add, Real.sin_add]

theorem samplePoint2_z (c : HelixConfig) (i : ℕ) :
    (samplePoint2 c i).z = -(samplePoint1 c i).z := by
  simp [samplePoint1, samplePoint2, Real.cos_add, Real.sin_add]

/- ### The claims -/

/-- Claim C1, as the specification states it, is false of the source: the
`DNAHelix` component performs no validation of its props at all.  At
`build {turns := 0, radius := 1, height := 1}` the sampling loop still runs
its `i = 0` iteration and geometry is produced — one sample per strand and
one rung — rather than any `InvalidConfiguration` failure. -/
theorem build_turns_zero_counterexample :
    (build ⟨0, 1, 1⟩).strand1 ≠ [] ∧ (build ⟨0, 1, 1⟩).rungs ≠ [] := by
  constructor
  · apply List.ne_nil_of_length_pos
    rw [build_strand1_length, numSamples_turns_zero]
    norm_num
  · apply List.ne_nil_of_length_pos
    rw [build_rungs_length, numSamples_turns_zero]
    norm_num

/-- Claim C1 (amended): the geometry builder performs no configuration
validation and never fails; for `turns = 0` (and any `radius`, `height`) it
produces geometry consisting of one sample per strand and one rung instead
of failing with `InvalidConfiguration`.  (In the source the single sample's
`y` is `NaN`, since `heightStep` divides by zero.) -/
theorem build_no_validation (r h : ℝ) :
    (build ⟨0, r, h⟩).strand1.length = 1 ∧
    (build ⟨0, r, h⟩).strand2.length = 1 ∧
    (build ⟨0, r, h⟩).rungs.length = 1 := by
  refine ⟨?_, ?_, ?_⟩
  · rw [build_strand1_length, numSamples_turns_zero]
  · rw [build_strand2_length, numSamples_turns_zero]
  · rw [build_rungs_length, numSamples_turns_zero]

/-- Claim C2: for every valid configuration the two strands have equal
length, and that length is `⌊turns * pointsPerTurn⌋ + 1`. -/
theorem build_strand_lengths (c : HelixConfig) (ht : 0 < c.turns)
    (hr : 0 < c.radius) (hh : 0 < c.height) :
    (build c).strand1.length = (build c).strand2.length ∧
    (build c).strand1.length = ⌊c.turns * (pointsPerTurn : ℝ)⌋₊ + 1 := by
  rw [build_strand1_length, build_strand2_length, numSamples_eq_floor c ht.le]
  exact ⟨rfl, rfl⟩

/-- Witness for C2 at the call-site configuration `turns = 3`, `radius = 2`,
`height = 15`. -/
theorem build_strand_lengths_witness :
    ((0 : ℝ) < 3 ∧ (0 : ℝ) < 2 ∧ (0 : ℝ) < 15) ∧
    ((build ⟨3, 2, 15⟩).strand1.length = (build ⟨3, 2, 15⟩).strand2.length ∧
      (build ⟨3, 2, 15⟩).strand1.length = ⌊(3 : ℝ) * (pointsPerTurn : ℝ)⌋₊ + 1) :=
  ⟨⟨by norm_num, by norm_num, by norm_num⟩,
    build_strand_lengths ⟨3, 2, 15⟩ (by norm_num) (by norm_num) (by norm_num)⟩

/-- Claim C3: at every sample index both strand points lie at distance
exactly `radius` from the central (y) axis, share the same `y` coordinate,
and are diametrically opposite each other about that axis (angular
separation exactly π, i.e. the strand-2 point is the strand-1 point with
`x` and `z` negated). -/
theorem strand_opposition (c : HelixConfig) (i : ℕ) (ht : 0 < c.turns)
    (hr : 0 < c.radius) (hh : 0 < c.height)
    (hi : i < (build c).strand1.length) :
    (build c).strand1[i]? = some (samplePoint1 c i) ∧
    (build c).strand2[i]? = some (samplePoint2 c i) ∧
    axisDist (samplePoint1 c i) = c.radius ∧
    axisDist (samplePoint2 c i) = c.radius ∧
    (samplePoint2 c i).y = (samplePoint1 c i).y ∧
    (samplePoint2 c i).x = -(samplePoint1 c i).x ∧
    (samplePoint2 c i).z = -(samplePoint1 c i).z := by
  rw [build_strand1_length] at hi
  refine ⟨build_strand1_getElem? c i hi, build_strand2_getElem? c i hi,
    axisDist_samplePoint1 c i hr.le, ?_, rfl, samplePoint2_x c i, samplePoint2_z c i⟩
  rw [axisDist, samplePoint2_x c i, samplePoint2_z c i]
  have hsq : (-(samplePoint1 c i).x) ^ 2 + (-(samplePoint1 c i).z) ^ 2 =
      (samplePoint1 c i).x ^ 2 + (samplePoint1 c i).z ^ 2 := by ring
  rw [hsq, ← axisDist]
  exact axisDist_samplePoint1 c i hr.le

/-- Witness for C3 at the call-site configuration and sample index `0`. -/
theorem strand_opposition_witness :
    (build ⟨3, 2, 15⟩).strand1[0]? = some (samplePoint1 ⟨3, 2, 15⟩ 0) ∧
    (build ⟨3, 2, 15⟩).strand2[0]? = some (samplePoint2 ⟨3, 2, 15⟩ 0) ∧
    axisDist (samplePoint1 ⟨3, 2, 15⟩ 0) = (2 : ℝ) ∧
    axisDist (samplePoint2 ⟨3, 2, 15⟩ 0) = (2 : ℝ) ∧
    (samplePoint2 ⟨3, 2, 15⟩ 0).y = (samplePoint1 ⟨3, 2, 15⟩ 0).y ∧
    (samplePoint2 ⟨3, 2, 15⟩ 0).x = -(samplePoint1 ⟨3, 2, 15⟩ 0).x ∧
    (samplePoint2 ⟨3, 2, 15⟩ 0).z = -(samplePoint1 ⟨3, 2, 15⟩ 0).z :=
  strand_opposition ⟨3, 2, 15⟩ 0 (by norm_num) (by norm_num) (by norm_num)
    (by rw [build_strand1_length, numSamples_default]; norm_num)

theorem rungs_length_floor (c : HelixConfig) (ht : 0 < c.turns) :
    (build c).rungs.length = ⌊totalPoints c / 4⌋₊ + 1 := by
  have hdiv : ⌊totalPoints c / (4 : ℝ)⌋₊ = ⌊totalPoints c⌋₊ / 4 := by
    exact_mod_cast Nat.floor_div_nat (totalPoints c) 4
  rw [build_rungs_length, numSamples_eq_floor c ht.le, hdiv]
  omega

/-- Claim C4: for every valid configuration the rungs are emitted exactly at
the sample indices divisible by 4 — the `k`-th rung pairs the strand points
of sample index `4 * k` — and the number of rungs is
`⌊totalPoints / 4⌋ + 1` where `totalPoints = turns * pointsPerTurn`. -/
theorem rung_emission (c : HelixConfig) (ht : 0 < c.turns)
    (hr : 0 < c.radius) (hh : 0 < c.height) :
    (build c).rungs.length = ⌊totalPoints c / 4⌋₊ + 1 ∧
    ∀ k, k < (build c).rungs.length →
      (build c).rungs[k]? =
        some { start := samplePoint1 c (4 * k), endPoint := samplePoint2 c (4 * k) } := by
  refine ⟨rungs_length_floor c ht, fun k hk => ?_⟩
  rw [build_rungs_length] at hk
  rw [build_rungs_eq]
  simp [hk]

/-- Witness for C4 at the call-site configuration: 31 rungs, the first one
pairing the two strand points of sample index 0. -/
theorem rung_emission_witness :
    (build ⟨3, 2, 15⟩).rungs.length = ⌊totalPoints ⟨3, 2, 15⟩ / 4⌋₊ + 1 ∧
    (build ⟨3, 2, 15⟩).rungs[0]? =
      some { start := samplePoint1 ⟨3, 2, 15⟩ 0, endPoint := samplePoint2 ⟨3, 2, 15⟩ 0 } := by
  have h := rung_emission ⟨3, 2, 15⟩ (by norm_num) (by norm_num) (by norm_num)
  refine ⟨h.1, ?_⟩
  have h0 : 0 < (build ⟨3, 2, 15⟩).rungs.length := by
    rw [build_rungs_length, numSamples_default]
    norm_num
  simpa using h.2 0 h0

/-- Claim C5, as the specification states it, is false of the source when
`turns * pointsPerTurn` is not an integer: at the valid configuration
`turns = 1/80`, `radius = 1`, `height = 1` the loop bound
`totalPoints = 1/2` admits only the sample `i = 0`, so the last sample's
`y` is `-height/2 = -(1/2)`, not `height/2 = 1/2`. -/
theorem last_sample_height_counterexample :
    ((0 : ℝ) < 1 / 80 ∧ (0 : ℝ) < 1) ∧
    (build ⟨1 / 80, 1, 1⟩).strand1.getLast? = some (samplePoint1 ⟨1 / 80, 1, 1⟩ 0) ∧
    (samplePoint1 ⟨1 / 80, 1, 1⟩ 0).y = -(1 / 2) ∧
    ((-(1 / 2) : ℝ) ≠ (1 : ℝ) / 2) := by
  have h1 : numSamples ⟨1 / 80, 1, 1⟩ = 1 := by
    rw [numSamples, totalPoints_cfg]
    have hhalf : (1 / 80 : ℝ) * 40 = 1 / 2 := by norm_num
    rw [hhalf, Int.floor_eq_zero_iff.mpr (Set.mem_Ico.mpr ⟨by norm_num, by norm_num⟩)]
    rfl
  refine ⟨⟨by norm_num, by norm_num⟩, ?_, ?_, by norm_num⟩
  · have hl : (build ⟨1 / 80, 1, 1⟩).strand1
        = (List.range 1).map (samplePoint1 ⟨1 / 80, 1, 1⟩) := by
      rw [build, h1]
    rw [hl]
    rfl
  · simp [samplePoint1]

/-- Claim C5 (amended): for every valid configuration `strand1[i].y` is
strictly increasing in `i` and the first sample's `y` is `-height/2`; the
last sample's `y` equals `height/2` provided `turns * pointsPerTurn` is an
integer (as at the call site, `turns = 3`), while in general the last
sample index is `⌊turns * pointsPerTurn⌋` and its `y` falls short of
`height/2` when `turns * pointsPerTurn` is fractional. -/
theorem strand1_height_profile (c : HelixConfig) (ht : 0 < c.turns)
    (hr : 0 < c.radius) (hh : 0 < c.height) :
    (∀ i j : ℕ, i < j → j < (build c).strand1.length →
      (samplePoint1 c i).y < (samplePoint1 c j).y) ∧
    (build c).strand1.head? = some (samplePoint1 c 0) ∧
    (samplePoint1 c 0).y = -(c.height / 2) ∧
    (build c).strand1.getLast? = some (samplePoint1 c (numSamples c - 1)) ∧
    (∀ n : ℕ, totalPoints c = (n : ℝ) →
      (samplePoint1 c (numSamples c - 1)).y = c.height / 2) := by
  obtain ⟨m, hm⟩ : ∃ m, numSamples c = m + 1 :=
    ⟨⌊totalPoints c⌋₊, numSamples_eq_floor c ht.le⟩
  have hs := heightStep_pos c ht hh
  refine ⟨?_, ?_, ?_, ?_, ?_⟩
  · intro i j hij _
    have hcast : (i : ℝ) < (j : ℝ) := Nat.cast_lt.mpr hij
    have : (i : ℝ) * heightStep c < (j : ℝ) * heightStep c :=
      mul_lt_mul_of_pos_right hcast hs
    simpa [samplePoint1] using sub_lt_sub_right this (c.height / 2)
  · rw [build]
    simp [hm, List.range_succ_eq_map]
  · simp [samplePoint1]
  · rw [build]
    simp only [hm, List.range_succ, List.map_append, List.map_cons, List.map_nil,
      List.getLast?_concat, Nat.add_sub_cancel]
  · intro n hn
    have hfloor : ⌊totalPoints c⌋₊ = n := by
      rw [hn, Nat.floor_natCast]
    have hlast : numSamples c - 1 = n := by
      rw [numSamples_eq_floor c ht.le, hfloor]
      omega
    have hn0 : (n : ℝ) ≠ 0 := by
      rw [← hn]
      have h40 : (0 : ℝ) < (pointsPerTurn : ℝ) := by norm_num [pointsPerTurn]
      exact ne_of_gt (mul_pos ht h40)
    rw [hlast]
    show (n : ℝ) * heightStep c - c.height / 2 = c.height / 2
    rw [heightStep, hn, mul_comm, div_mul_cancel₀ c.height hn0]
    ring

/-- Witness for C5 (amended) at the call-site configuration, where
`turns * pointsPerTurn = 120` is an integer. -/
theorem strand1_height_profile_witness :
    (samplePoint1 ⟨3, 2, 15⟩ 0).y < (samplePoint1 ⟨3, 2, 15⟩ 1).y ∧
    (build ⟨3, 2, 15⟩).strand1.head? = some (samplePoint1 ⟨3, 2, 15⟩ 0) ∧
    (samplePoint1 ⟨3, 2, 15⟩ 0).y = -((15 : ℝ) / 2) ∧
    (build ⟨3, 2, 15⟩).strand1.getLast? =
      some (samplePoint1 ⟨3, 2, 15⟩ (numSamples ⟨3, 2, 15⟩ - 1)) ∧
    (samplePoint1 ⟨3, 2, 15⟩ (numSamples ⟨3, 2, 15⟩ - 1)).y = (15 : ℝ) / 2 := by
  have h := strand1_height_profile ⟨3, 2, 15⟩ (by norm_num) (by norm_num) (by norm_num)
  exact ⟨h.1 0 1 (by norm_num)
      (by rw [build_strand1_length, numSamples_default]; norm_num),
    h.2.1, h.2.2.1, h.2.2.2.1, h.2.2.2.2 120 (by rw [totalPoints_cfg]; norm_num)⟩

theorem rotator_foldl (a : ℝ) (ds : List ℝ) :
    ds.foldl rotatorStep a = a - angularVelocity * ds.sum := by
  induction ds generalizing a with
  | nil => simp
  | cons d ds ih =>
    rw [List.foldl_cons, ih, List.sum_cons, rotatorStep]
    ring

/-- Claim C6: running the rotation driver from angle 0 over any finite
sequence of frame deltas yields `-angularVelocity * (sum of the deltas)`
with `angularVelocity = 0.5`; the result depends only on the sum, so it is
independent of how the elapsed time is chunked into ticks. -/
theorem rotation_accumulation (deltas : List ℝ) :
    rotatorRun deltas = -angularVelocity * deltas.sum ∧ angularVelocity = 0.5 := by
  refine ⟨?_, rfl⟩
  rw [rotatorRun, rotator_foldl]
  ring

/-- Claim C7, as the specification states it, is false of the source: the
rung assembler has no degenerate-rung branch.  For a rung whose start
equals its end it still runs the normalize-and-orient step (the direction
fed to `setFromUnitVectors` is the zero vector, which THREE.js's guarded
`normalize` leaves unchanged), and the emitted cylinder keeps the fixed
cross-section radius `0.08` — it is not treated as a zero-radius point. -/
theorem degenerate_rung_counterexample :
    (assembleRung { start := ⟨1, 2, 3⟩, endPoint := ⟨1, 2, 3⟩ }).radiusTop = 0.08 ∧
    ((0.08 : ℝ) ≠ 0) ∧
    (assembleRung { start := ⟨1, 2, 3⟩, endPoint := ⟨1, 2, 3⟩ }).axisDir = ⟨0, 0, 0⟩ := by
  have hsub : sub3 (⟨1, 2, 3⟩ : Point3) ⟨1, 2, 3⟩ = ⟨0, 0, 0⟩ := by
    simp [sub3]
  have hlen : len3 (⟨0, 0, 0⟩ : Point3) = 0 := by
    simp [len3]
  refine ⟨rfl, by norm_num, ?_⟩
  show normalize3 (sub3 (⟨1, 2, 3⟩ : Point3) ⟨1, 2, 3⟩) = ⟨0, 0, 0⟩
  rw [hsub, normalize3, if_pos hlen]

/-- Claim C7 (amended): the assembler runs the normalize-and-orient step
unconditionally, with no special case for a degenerate rung; it does not
crash on one because THREE.js's `normalize` (`divideScalar(length || 1)`)
leaves the zero direction vector unchanged, and the result is a zero-length
cylinder at the rung's point that keeps the fixed cross-section radius
`0.08` rather than becoming a zero-radius point. -/
theorem degenerate_rung_node (p : Point3) :
    assembleRung { start := p, endPoint := p } =
      { position := p, axisDir := ⟨0, 0, 0⟩, radiusTop := 0.08,
        radiusBottom := 0.08, cylHeight := 0, radialSegments := 8 } := by
  have hsub : sub3 p p = ⟨0, 0, 0⟩ := by
    simp [sub3]
  have hlen : len3 (⟨0, 0, 0⟩ : Point3) = 0 := by
    simp [len3]
  have hmid : midpoint3 p p = p := by
    ext <;> simp [midpoint3] <;> ring
  rw [assembleRung]
  show RungNode.mk (midpoint3 p p) (normalize3 (sub3 p p)) 0.08 0.08
      (len3 (sub3 p p)) 8 = _
  rw [hsub, hmid, hlen, normalize3, if_pos hlen]

/-- Claim C8: the geometry builder is a deterministic pure function of its
configuration — configurations equal field by field (equal by value, not by
reference) yield identical strand point sequences and rung lists. -/
theorem build_deterministic (c₁ c₂ : HelixConfig) (ht : c₁.turns = c₂.turns)
    (hr : c₁.radius = c₂.radius) (hh : c₁.height = c₂.height) :
    build c₁ = build c₂ := by
  have h : c₁ = c₂ := by
    cases c₁
    cases c₂
    simp only [HelixConfig.mk.injEq]
    exact ⟨ht, hr, hh⟩
  rw [h]

/-- Witness for C8 at the call-site configuration. -/
theorem build_deterministic_witness :
    build ⟨3, 2, 15⟩ = build ⟨3, 2, 15⟩ :=
  build_deterministic ⟨3, 2, 15⟩ ⟨3, 2, 15⟩ rfl rfl rfl

/-- Claim C9: the rendered object's transform is an outer static tilt of
`π/6` about the viewing (z) axis, the parent of an inner dynamic spin about
the y axis (world transform = tilt applied to the spin's output); a frame
tick updates only the inner spin angle — by `-delta * angularVelocity` —
and leaves the outer tilt unchanged. -/
theorem tilt_and_spin (s : RotatorFrame) (delta : ℝ) :
    rotatorMount.tiltZ = Real.pi / 6 ∧
    (rotatorFrameTick s delta).tiltZ = s.tiltZ ∧
    (rotatorFrameTick s delta).spinY = s.spinY - delta * angularVelocity ∧
    ∀ p : Point3, rotatorWorld (rotatorFrameTick s delta) p =
      rotZ s.tiltZ (rotY (s.spinY - delta * angularVelocity) p) :=
  ⟨rfl, rfl, rfl, fun _ => rfl⟩

theorem rung_pair_geometry (c : HelixConfig) (hr : 0 ≤ c.radius) (i : ℕ) :
    len3 (sub3 (samplePoint2 c i) (samplePoint1 c i)) = 2 * c.radius ∧
    (midpoint3 (samplePoint1 c i) (samplePoint2 c i)).x = 0 ∧
    (midpoint3 (samplePoint1 c i) (samplePoint2 c i)).z = 0 ∧
    (midpoint3 (samplePoint1 c i) (samplePoint2 c i)).y = (samplePoint1 c i).y := by
  have hx := samplePoint2_x c i
  have hz := samplePoint2_z c i
  have hy : (samplePoint2 c i).y = (samplePoint1 c i).y := rfl
  refine ⟨?_, ?_, ?_, ?_⟩
  · show Real.sqrt (((samplePoint2 c i).x - (samplePoint1 c i).x) ^ 2 +
      ((samplePoint2 c i).y - (samplePoint1 c i).y) ^ 2 +
      ((samplePoint2 c i).z - (samplePoint1 c i).z) ^ 2) = 2 * c.radius
    rw [hx, hz, hy]
    have h1 : (samplePoint1 c i).x = Real.cos ((i : ℝ) * angleStep) * c.radius := rfl
    have h2 : (samplePoint1 c i).z = Real.sin ((i : ℝ) * angleStep) * c.radius := rfl
    have hs : (-(samplePoint1 c i).x - (samplePoint1 c i).x) ^ 2 +
        ((samplePoint1 c i).y - (samplePoint1 c i).y) ^ 2 +
        (-(samplePoint1 c i).z - (samplePoint1 c i).z) ^ 2 = (2 * c.radius) ^ 2 := by
      rw [h1, h2]
      linear_combination 4 * c.radius ^ 2 * Real.sin_sq_add_cos_sq ((i : ℝ) * angleStep)
    rw [hs]
    exact Real.sqrt_sq (by positivity)
  · show ((samplePoint1 c i).x + (samplePoint2 c i).x) / 2 = 0
    rw [hx]
    ring
  · show ((samplePoint1 c i).z + (samplePoint2 c i).z) / 2 = 0
    rw [hz]
    ring
  · show ((samplePoint1 c i).y + (samplePoint2 c i).y) / 2 = (samplePoint1 c i).y
    rw [hy]
    ring

/-- Claim C10: for every valid configuration, every emitted rung spans a
full diameter — its length is exactly `2 * radius` — and its midpoint lies
on the central axis (`x = 0` and `z = 0`) at the height of its endpoints. -/
theorem rung_geometry (c : HelixConfig) (ht : 0 < c.turns) (hr : 0 < c.radius)
    (hh : 0 < c.height) :
    ∀ rg ∈ (build c).rungs,
      len3 (sub3 rg.endPoint rg.start) = 2 * c.radius ∧
      (midpoint3 rg.start rg.endPoint).x = 0 ∧
      (midpoint3 rg.start rg.endPoint).z = 0 ∧
      (midpoint3 rg.start rg.endPoint).y = rg.start.y := by
  intro rg hmem
  rw [build_rungs_eq] at hmem
  obtain ⟨k, hk, rfl⟩ := List.mem_map.mp hmem
  exact rung_pair_geometry c hr.le (4 * k)

/-- Witness for C10: the first rung of the call-site configuration has
length `2 * 2` and its midpoint sits on the axis. -/
theorem rung_geometry_witness :
    ({ start := samplePoint1 ⟨3, 2, 15⟩ 0, endPoint := samplePoint2 ⟨3, 2, 15⟩ 0 } : Rung)
      ∈ (build ⟨3, 2, 15⟩).rungs ∧
    (len3 (sub3 (samplePoint2 ⟨3, 2, 15⟩ 0) (samplePoint1 ⟨3, 2, 15⟩ 0)) = 2 * (2 : ℝ) ∧
      (midpoint3 (samplePoint1 ⟨3, 2, 15⟩ 0) (samplePoint2 ⟨3, 2, 15⟩ 0)).x = 0 ∧
      (midpoint3 (samplePoint1 ⟨3, 2, 15⟩ 0) (samplePoint2 ⟨3, 2, 15⟩ 0)).z = 0 ∧
      (midpoint3 (samplePoint1 ⟨3, 2, 15⟩ 0) (samplePoint2 ⟨3, 2, 15⟩ 0)).y =
        (samplePoint1 ⟨3, 2, 15⟩ 0).y) := by
  have hmem : Rung.mk (samplePoint1 ⟨3, 2, 15⟩ 0) (samplePoint2 ⟨3, 2, 15⟩ 0)
      ∈ (build ⟨3, 2, 15⟩).rungs := by
    rw [build_rungs_eq]
    have h0 : 0 ∈ List.range ((numSamples ⟨3, 2, 15⟩ + 3) / 4) := by
      rw [numSamples_default]
      decide
    have heq : (fun k => Rung.mk (samplePoint1 ⟨3, 2, 15⟩ (4 * k))
        (samplePoint2 ⟨3, 2, 15⟩ (4 * k))) 0
        = Rung.mk (samplePoint1 ⟨3, 2, 15⟩ 0) (samplePoint2 ⟨3, 2, 15⟩ 0) := by
      norm_num
    exact List.mem_map.mpr ⟨0, h0, heq⟩
  refine ⟨hmem, ?_⟩
  have hres := rung_geometry ⟨3, 2, 15⟩ (by norm_num) (by norm_num) (by norm_num) _ hmem
  exact hres
